import Mathlib

/-!
Verification of the request-routing core of the jina repository.

The development shallowly embeds, from the Python sources:
  * `TopologyGraph._ReqReplyNode._wait_previous_and_send`
    (src/jina/peapods/runtimes/gateway/graph/topology_graph.py)
    as a pure state-transition function on the node's mutable fields
    (`parts_to_send`, `start_time`, `end_time`, `status`), with an explicit
    monotone clock standing in for `datetime.utcnow()` and the connection
    pool abstracted as a function;
  * the route tracer `_ReqReplyNode.add_route` / `TopologyGraph.add_routes`
    over rose trees of nodes;
  * `TopologyGraph.__init__` over an association-list graph representation;
  * `_ReqReplyNode.get_leaf_tasks`;
  * the Kubernetes deployment-planner fragments
    `K8sPodConfig._get_deployment_args` (connection list) and
    `kubernetes_deployment.get_deployment_yamls` / `to_dns_name`.
-/

namespace Jina

/-- A data request, abstracted: an identifier plus the status carried in its
header (`resp.header.status` in the Python source). -/
structure Req where
  id : Nat
  headerStatus : Nat
  deriving DecidableEq, Repr

/-- RPC metadata: a flat key/value map, embedded as an association list.
Only membership of the key `is-error` is ever inspected by the graph code. -/
abbrev Meta := List (String × String)

/-- `'is-error' in metadata` from the Python source. -/
def hasError (m : Meta) : Bool :=
  (m : List (String × String)).any (fun p => p.1 == "is-error")

/-- The mutable per-node fields of `_ReqReplyNode` that
`_wait_previous_and_send` reads and writes. -/
structure NodeState where
  parts_to_send : List Req
  start_time : Option Nat
  end_time : Option Nat
  status : Option Nat
  deriving DecidableEq, Repr

/-- Fresh node state, as set by `_ReqReplyNode.__init__`. -/
def initState : NodeState :=
  { parts_to_send := [], start_time := none, end_time := none, status := none }

/-- One recorded invocation of
`connection_pool.send_requests_once(requests, pod, head, endpoint)`. -/
structure PoolCall where
  requests : List Req
  pod : String
  head : Bool
  endpoint : Option String
  deriving DecidableEq, Repr

/-- The connection pool, abstracted: a pure function from a call to the
`(response, metadata)` pair it returns. -/
def Pool := PoolCall → Req × Meta

/-- Result of one `_wait_previous_and_send` invocation: the value returned to
the awaiting successor task, the node state after the call, the clock after
the call, and the pool calls issued during the call. -/
structure StepResult where
  result : Option Req × Meta
  state : NodeState
  clock : Nat
  calls : List PoolCall
  deriving DecidableEq, Repr

/-- Shallow embedding of `_ReqReplyNode._wait_previous_and_send`
(topology_graph.py lines 36-64).

`request0` is the `request` argument; `prev` is the value awaited from
`previous_task` (`none` when `previous_task is None`).  `datetime.utcnow()`
is modelled by the clock, which advances by one at each reading; the awaited
pool call is modelled by applying `pool`. -/
def waitPreviousAndSend (name : String) (number_of_parts : Nat) (pool : Pool)
    (endpoint : Option String) (request0 : Option Req)
    (prev : Option (Option Req × Meta)) (st : NodeState) (clock : Nat) :
    StepResult :=
  let rm : Option Req × Meta :=
    match prev with
    | some r => r
    | none => (request0, (∅ : Meta))
  let request := rm.1
  let metadata := rm.2
  if hasError metadata then
    { result := (request, metadata), state := st, clock := clock, calls := [] }
  else
    match request with
    | some req =>
      let parts := st.parts_to_send ++ [req]
      if parts.length = number_of_parts then
        let call : PoolCall :=
          { requests := parts, pod := name, head := true, endpoint := endpoint }
        let (resp, meta2) := pool call
        let st2 : NodeState :=
          { parts_to_send := parts
            start_time := some clock
            end_time := some (clock + 1)
            status := if hasError meta2 then some resp.headerStatus else st.status }
        { result := (some resp, meta2), state := st2, clock := clock + 2,
          calls := [call] }
      else
        { result := (none, (∅ : Meta)),
          state := { st with parts_to_send := parts }, clock := clock,
          calls := [] }
    | none =>
      { result := (none, (∅ : Meta)), state := st, clock := clock, calls := [] }

/-- Executing a linear chain of nodes, each node awaiting the task of the
previous one (the downstream composition built by `get_leaf_tasks`):
each node starts from a fresh per-request state.  Returns the final awaited
result, the final clock, the per-node final states in chain order, and all
pool calls issued. -/
def execChain (pool : Pool) (endpoint : Option String) :
    List (String × Nat) → (Option Req × Meta) → Nat →
    (Option Req × Meta) × Nat × List NodeState × List PoolCall
  | [], input, clock => (input, clock, [], [])
  | (n, k) :: rest, input, clock =>
    let s := waitPreviousAndSend n k pool endpoint none (some input) initState clock
    let (res, clock2, states, calls) := execChain pool endpoint rest s.result s.clock
    (res, clock2, s.state :: states, s.calls ++ calls)

/-- Sequentially process a list of awaited parent results through one node,
threading its state and the clock.  In the source, one
`_wait_previous_and_send` coroutine runs per incoming edge on the shared
node object; the asyncio event loop runs the body between awaits atomically,
so the arrivals are interleaved sequentially in some order.  Returns the
final state, the final clock, all pool calls issued, and the per-arrival
results in order. -/
def processInputs (name : String) (k : Nat) (pool : Pool)
    (ep : Option String) :
    List (Option Req × Meta) → NodeState → Nat →
    NodeState × Nat × List PoolCall × List (Option Req × Meta)
  | [], st, clock => (st, clock, [], [])
  | input :: rest, st, clock =>
    let s := waitPreviousAndSend name k pool ep none (some input) st clock
    let (st2, clock2, calls, outs) :=
      processInputs name k pool ep rest s.state s.clock
    (st2, clock2, s.calls ++ calls, s.result :: outs)

/-- The pool call issued when the node's part count reaches
`number_of_parts`: the whole accumulated parts list as one batch,
`head=True`, this node's name as the pod. -/
def dispatchCall (name : String) (ep : Option String) (parts : List Req) :
    PoolCall :=
  { requests := parts, pod := name, head := true, endpoint := ep }

/-- One entry of the `routes` repeated field of a DataRequest, as written by
`add_route`: `end_time` and `status` stay unset when the node never
recorded them. -/
structure RouteEntry where
  pod : String
  start_time : Nat
  end_time : Option Nat
  status : Option Nat
  deriving DecidableEq, Repr

/-- A graph node as seen by the route tracer: its name, the timing state the
traversal left on it, and its outgoing nodes.  A node reachable along
several paths appears as one identical subtree per path (the Python object
is shared; only its name and recorded state matter to `add_route`). -/
inductive RNode where
  | mk (name : String) (start_time : Option Nat) (end_time : Option Nat)
      (status : Option Nat) (outgoing : List RNode)
  deriving Repr

/-- `_find_route` inside `add_route`: the first route entry whose pod name
is this node's name. -/
def findRoute (routes : List RouteEntry) (name : String) : Option RouteEntry :=
  routes.find? (fun r => r.pod == name)

mutual
/-- Shallow embedding of `_ReqReplyNode.add_route` (topology_graph.py lines
125-150), acting on the request's routes list. -/
def RNode.addRoute : RNode → List RouteEntry → List RouteEntry
  | .mk name stime etime status outs, routes =>
    let routes2 :=
      if ((findRoute routes name).isNone && stime.isSome) then
        routes ++
          [{ pod := name, start_time := stime.getD 0, end_time := etime,
             status := status }]
      else routes
    addRouteList outs routes2
/-- The recursion of `add_route` over `outgoing_nodes`; applied to
`_origin_nodes` it is `TopologyGraph.add_routes` (lines 188-197). -/
def addRouteList : List RNode → List RouteEntry → List RouteEntry
  | [], routes => routes
  | n :: rest, routes => addRouteList rest (n.addRoute routes)
end

mutual
/-- A node is covered by a set of pod names when every node in its subtree
whose `start_time` is set already has its name among them. -/
def RNode.covered : RNode → List String → Bool
  | .mk name stime _ _ outs, pods =>
    (!stime.isSome || pods.contains name) && coveredList outs pods
/-- List version of `RNode.covered`. -/
def coveredList : List RNode → List String → Bool
  | [], _ => true
  | n :: rest, pods => n.covered pods && coveredList rest pods
end

/-- A graph node as seen by `get_leaf_tasks`: name, hanging flag, outgoing
nodes. -/
inductive GNode where
  | mk (name : String) (hanging : Bool) (outgoing : List GNode)
  deriving Repr

/-- The node's name. -/
def GNode.name : GNode → String
  | .mk n _ _ => n

/-- The node's hanging flag. -/
def GNode.hanging : GNode → Bool
  | .mk _ h _ => h

mutual
/-- Shallow embedding of `_ReqReplyNode.get_leaf_tasks` (topology_graph.py
lines 66-123): the list of (await-flag, task) pairs handed back to the
gateway, a task identified by the name of the leaf node whose
`_wait_previous_and_send` it runs.  A leaf returns its own task flagged
`not hanging`; an inner node returns its children's lists concatenated. -/
def GNode.getLeafTasks : GNode → List (Bool × String)
  | .mk name hanging [] => [(!hanging, name)]
  | .mk _ _ (o :: os) => getLeafTasksList (o :: os)
/-- The loop over `outgoing_nodes` in `get_leaf_tasks`. -/
def getLeafTasksList : List GNode → List (Bool × String)
  | [] => []
  | n :: rest => n.getLeafTasks ++ getLeafTasksList rest
end

mutual
/-- The leaf descendants of a node, in traversal order. -/
def GNode.leaves : GNode → List GNode
  | .mk name hanging [] => [.mk name hanging []]
  | .mk _ _ (o :: os) => leavesList (o :: os)
/-- List version of `GNode.leaves`. -/
def leavesList : List GNode → List GNode
  | [] => []
  | n :: rest => n.leaves ++ leavesList rest
end

/-- The graph representation handed to `TopologyGraph.__init__`: the Python
dict mapping a node name to its outgoing node names, embedded as an
association list (a dict's keys are distinct; stated as a hypothesis where
it matters). -/
abbrev GraphRep := List (String × List String)

/-- The two reserved gateway names that are never turned into nodes. -/
def isGatewayName (n : String) : Bool :=
  n == "start-gateway" || n == "end-gateway"

/-- `num_parts_per_node[n]` after the first loop of `TopologyGraph.__init__`
(lines 160-168): every occurrence of `n` in any outgoing list of the
representation counts, provided `n` is not a gateway name — the loop does
not skip the `start-gateway` key. -/
def numPartsPerNode (rep : GraphRep) (n : String) : Nat :=
  if isGatewayName n then 0
  else ((rep : List (String × List String)).map (fun p => p.2.count n)).sum

/-- Membership of `node_set`: a non-gateway name occurring as a key or in
some outgoing list. -/
def inNodeSet (rep : GraphRep) (n : String) : Bool :=
  !isGatewayName n &&
    ((rep : List (String × List String)).any (fun p => p.1 == n) ||
      (rep : List (String × List String)).any (fun p => p.2.contains n))

/-- Membership of `hanging_pod_names`: a key of the representation whose
outgoing list is empty (lines 163-164). -/
def inHangingPodNames (rep : GraphRep) (n : String) : Bool :=
  (rep : List (String × List String)).any (fun p => p.1 == n && p.2.isEmpty)

/-- The constructor arguments of the `_ReqReplyNode` built for one name in
`node_set` (lines 170-178). -/
structure NodeInit where
  name : String
  number_of_parts : Nat
  hanging : Bool
  deriving DecidableEq, Repr

/-- The `_ReqReplyNode` built by `TopologyGraph.__init__` for `n`. -/
def buildNode (rep : GraphRep) (n : String) : NodeInit :=
  { name := n
    number_of_parts :=
      if numPartsPerNode rep n > 0 then numPartsPerNode rep n else 1
    hanging := inHangingPodNames rep n }

/-- Modelled from the spec's invariant wording for C2: the number of
predecessors of `n` excluding `start-gateway` (distinct keys of the
representation, other than `start-gateway`, whose outgoing list mentions
`n`). -/
def specPredsExclStartGateway (rep : GraphRep) (n : String) : Nat :=
  ((rep : List (String × List String)).filter
    (fun p => !(p.1 == "start-gateway") && p.2.contains n)).length

/-- Incoming edges of `n` counted with multiplicity over every key of the
representation, the `start-gateway` key included. -/
def incomingCount (rep : GraphRep) (n : String) : Nat :=
  ((rep : List (String × List String)).map Prod.snd).flatten.count n

/-- The keys of the representation are pairwise distinct (a Python dict). -/
abbrev uniqueKeys (rep : GraphRep) : Prop :=
  ((rep : List (String × List String)).map Prod.fst).Nodup

/-- Dict lookup on the representation. -/
def lookupRep (rep : GraphRep) (n : String) : Option (List String) :=
  ((rep : List (String × List String)).find? (fun p => p.1 == n)).map Prod.snd

/-- A terminal: a node whose outgoing list feeds `end-gateway`. -/
def isTerminal (rep : GraphRep) (n : String) : Bool :=
  (rep : List (String × List String)).any
    (fun p => p.1 == n && p.2.contains "end-gateway")

/-- `to_dns_name` (kubernetes_deployment.py lines 11-17):
`name.replace('/', '-').replace('_', '-').lower()`.  Both replacements act
on single-character patterns and the names are ASCII, so the chain is
embedded as one character-wise map. -/
def toDnsName (name : String) : String :=
  String.mk (name.data.map (fun c =>
    if c = '/' then '-' else if c = '_' then '-' else c.toLower))

/-- The `connection_list` object built by `K8sPodConfig._get_deployment_args`
(k8s.py lines 288-303) when the Kubernetes connection pool is disabled:
the JSON mapping embedded as an association list in insertion order
`i = 0 .. shards-1`.  `portIn` stands for
`K8sGrpcConnectionPool.K8S_PORT_IN`, whose numeric value lives outside the
sources. -/
def connectionList (podName : String) (shards : Nat) (ns : String)
    (portIn : Nat) : List (String × String) :=
  (List.range shards).map fun i =>
    let dnsN :=
      if shards > 1 then toDnsName podName ++ "-" ++ toString i
      else toDnsName podName
    (toString i, dnsN ++ "." ++ ns ++ ".svc:" ++ toString portIn)

/-- Whether, and with which value, `_get_deployment_args` sets the head
deployment's `connection_list` (k8s.py lines 279-303): only a non-gateway
pod gets a head deployment, and only with the connection pool disabled is
the list written. -/
def headConnectionList (podName : String) (shards : Nat) (ns : String)
    (portIn : Nat) (k8sConnectionPool : Bool) :
    Option (List (String × String)) :=
  if podName == "gateway" then none
  else if k8sConnectionPool then none
  else some (connectionList podName shards ns portIn)

/-- The address mapping exactly as the claim words it (no `.svc` cluster
suffix between namespace and port). -/
def claimConnectionList (podName : String) (shards : Nat) (ns : String)
    (portIn : Nat) : List (String × String) :=
  (List.range shards).map fun i =>
    let dnsN :=
      if shards > 1 then toDnsName podName ++ "-" ++ toString i
      else toDnsName podName
    (toString i, dnsN ++ "." ++ ns ++ ":" ++ toString portIn)

/-- The claim's mapping amended with the `.svc` suffix the code inserts,
written by recursion on the shard count: shard index i (as a string) maps
to "dns.namespace.svc:port", the dns name carrying the `-{i}` suffix
exactly when the pod has more than one shard. -/
def amendedConnectionListAux (podName ns : String) (portIn : Nat)
    (multi : Bool) : Nat → List (String × String)
  | 0 => []
  | m + 1 =>
    amendedConnectionListAux podName ns portIn multi m ++
      [(toString m,
        (if multi then toDnsName podName ++ "-" ++ toString m
         else toDnsName podName) ++ "." ++ ns ++ ".svc:" ++ toString portIn)]

/-- The amended C7 mapping over all shard indices. -/
def amendedConnectionList (podName : String) (shards : Nat) (ns : String)
    (portIn : Nat) : List (String × String) :=
  amendedConnectionListAux podName ns portIn (decide (shards > 1)) shards

/-- A parameter value of a manifest template dictionary. -/
inductive PVal where
  | s (v : String)
  | n (v : Nat)
  | missing
  | dict (v : List (String × String))
  deriving DecidableEq, Repr

/-- Option-string parameter as passed into the template dicts. -/
def PVal.ofOptStr : Option String → PVal
  | some v => .s v
  | none => .missing

/-- Modelled from the spec: `kubernetes_tools.get_yaml` (kubernetes_tools.py
is outside src/) renders one orchestrator manifest from a template name and
its parameter dictionary; it is kept abstract as the pair of both. -/
structure RenderedYaml where
  template : String
  params : List (String × PVal)
  deriving DecidableEq, Repr

/-- Modelled from the spec: the manifest renderer, abstract. -/
def getYaml (template : String) (params : List (String × PVal)) :
    RenderedYaml :=
  { template := template, params := params }

/-- Python truthiness of an optional string (`None` and `''` are falsy). -/
def truthyStr (o : Option String) : Bool :=
  !(o.getD "" == "")

/-- Python truthiness of an optional integer (`None` and `0` are falsy). -/
def truthyNat (o : Option Nat) : Bool :=
  !(o.getD 0 == 0)

/-- Shallow embedding of `kubernetes_deployment.get_deployment_yamls`
(kubernetes_deployment.py lines 20-145).  The well-known
`K8sGrpcConnectionPool` ports are passed in, their numeric values living
outside the sources. -/
def getDeploymentYamls (name namespc image_name container_cmd
      container_args : String) (replicas : Nat)
    (pull_policy jina_pod_name pea_type : String) (shard_id : Option Nat)
    (port_expose : Option Nat) (env : Option (List (String × String)))
    (gpus : Option Nat)
    (image_name_uses_before image_name_uses_after : Option String)
    (container_cmd_uses_before container_cmd_uses_after : Option String)
    (container_args_uses_before container_args_uses_after : Option String)
    (portExposeWellKnown portInWellKnown portUsesBefore portUsesAfter : Nat) :
    List RenderedYaml :=
  let port_expose2 :=
    if truthyNat port_expose then port_expose.getD 0 else portExposeWellKnown
  let port_in := portInWellKnown
  let port_ready_probe := if name == "gateway" then port_expose2 else port_in
  let deployment_params : List (String × PVal) :=
    [("name", .s name),
     ("namespace", .s namespc),
     ("image", .s image_name),
     ("replicas", .n replicas),
     ("command", .s container_cmd),
     ("args", .s container_args),
     ("port_expose", .n port_expose2),
     ("port_in", .n port_in),
     ("port_in_uses_before", .n portUsesBefore),
     ("port_in_uses_after", .n portUsesAfter),
     ("args_uses_before", PVal.ofOptStr container_args_uses_before),
     ("args_uses_after", PVal.ofOptStr container_args_uses_after),
     ("command_uses_before", PVal.ofOptStr container_cmd_uses_before),
     ("command_uses_after", PVal.ofOptStr container_cmd_uses_after),
     ("image_uses_before", PVal.ofOptStr image_name_uses_before),
     ("image_uses_after", PVal.ofOptStr image_name_uses_after),
     ("pull_policy", .s pull_policy),
     ("jina_pod_name", .s jina_pod_name),
     ("shard_id",
       .s (match shard_id with
           | some i => "\"" ++ toString i ++ "\""
           | none => "\"\"")),
     ("pea_type", .s pea_type),
     ("port_ready_probe", .n port_ready_probe)]
  let deployment_params2 :=
    if truthyNat gpus then
      deployment_params ++
        [("device_plugins", .dict [("nvidia.com/gpu", toString (gpus.getD 0))])]
    else deployment_params
  let template_name :=
    if truthyStr image_name_uses_before && truthyStr image_name_uses_after then
      "deployment-uses-before-after"
    else if truthyStr image_name_uses_before then "deployment-uses-before"
    else if truthyStr image_name_uses_after then "deployment-uses-after"
    else "deployment"
  [getYaml "connection-pool-role" [("namespace", .s namespc)],
   getYaml "connection-pool-role-binding" [("namespace", .s namespc)],
   getYaml "configmap"
     [("name", .s name), ("namespace", .s namespc),
      ("data", match env with | some e => .dict e | none => .missing)],
   getYaml "service"
     [("name", .s name), ("target", .s name), ("namespace", .s namespc),
      ("port_expose", .n port_expose2), ("port_in", .n port_in),
      ("type", .s "ClusterIP")],
   getYaml template_name deployment_params2]

end Jina

namespace Jina

lemma hasError_empty : hasError (∅ : Meta) = false := rfl

/-- On an error-marked awaited result, `_wait_previous_and_send` is the
identity on the pair, leaves the node state and clock alone, and issues no
pool call. -/
lemma waitPreviousAndSend_error (name : String) (k : Nat) (pool : Pool)
    (ep : Option String) (r0 : Option Req) (input : Option Req × Meta)
    (st : NodeState) (c : Nat) (h : hasError input.2 = true) :
    waitPreviousAndSend name k pool ep r0 (some input) st c =
      { result := input, state := st, clock := c, calls := [] } := by
  unfold waitPreviousAndSend
  simp only [h, if_true]

/-- A chain of nodes fed an error-marked result propagates it verbatim:
no pool call happens anywhere downstream, no state changes, the clock does
not move. -/
lemma execChain_error (pool : Pool) (ep : Option String)
    (nodes : List (String × Nat)) (input : Option Req × Meta) (c : Nat)
    (h : hasError input.2 = true) :
    execChain pool ep nodes input c =
      (input, c, List.replicate nodes.length initState, []) := by
  induction nodes with
  | nil => simp [execChain]
  | cons nd rest ih =>
    obtain ⟨n, k⟩ := nd
    simp only [execChain, waitPreviousAndSend_error n k pool ep none input initState c h]
    rw [ih]
    simp [List.replicate]

/-- The send branch: when the awaited result is clean, carries a request and
completes the part count, the node records `start_time`, issues exactly the
batched pool call, records `end_time` after it, and returns the pool's
response and metadata. -/
lemma waitPreviousAndSend_send (name : String) (k : Nat) (pool : Pool)
    (ep : Option String) (input : Option Req × Meta) (req : Req)
    (st : NodeState) (c : Nat) (he : hasError input.2 = false)
    (hr : input.1 = some req) (hk : st.parts_to_send.length + 1 = k) :
    waitPreviousAndSend name k pool ep none (some input) st c =
      { result :=
          (some (pool (dispatchCall name ep (st.parts_to_send ++ [req]))).1,
            (pool (dispatchCall name ep (st.parts_to_send ++ [req]))).2)
        state :=
          { parts_to_send := st.parts_to_send ++ [req]
            start_time := some c
            end_time := some (c + 1)
            status :=
              if hasError
                  (pool (dispatchCall name ep (st.parts_to_send ++ [req]))).2 then
                some (pool (dispatchCall name ep (st.parts_to_send ++ [req]))).1.headerStatus
              else st.status }
        clock := c + 2
        calls := [dispatchCall name ep (st.parts_to_send ++ [req])] } := by
  unfold waitPreviousAndSend
  simp only [he, Bool.false_eq_true, if_false, hr]
  have hlen : (st.parts_to_send ++ [req]).length = k := by
    simp [hk]
  simp only [hlen, if_true, dispatchCall]

/-- The accumulate branch: a clean request that does not yet complete the
part count is appended and `(None, {})` is returned, with no pool call and
no timing recorded. -/
lemma waitPreviousAndSend_accumulate (name : String) (k : Nat) (pool : Pool)
    (ep : Option String) (input : Option Req × Meta) (req : Req)
    (st : NodeState) (c : Nat) (he : hasError input.2 = false)
    (hr : input.1 = some req) (hk : st.parts_to_send.length + 1 ≠ k) :
    waitPreviousAndSend name k pool ep none (some input) st c =
      { result := (none, (∅ : Meta))
        state := { st with parts_to_send := st.parts_to_send ++ [req] }
        clock := c
        calls := [] } := by
  unfold waitPreviousAndSend
  simp only [he, Bool.false_eq_true, if_false, hr]
  have hlen : (st.parts_to_send ++ [req]).length ≠ k := by
    simpa using hk
  simp only [hlen, if_false]

/-- A clean awaited result with no request (such as `(None, {})`) passes
through: nothing is appended, no pool call happens, `(None, {})` is
returned. -/
lemma waitPreviousAndSend_none (name : String) (k : Nat) (pool : Pool)
    (ep : Option String) (input : Option Req × Meta) (st : NodeState)
    (c : Nat) (he : hasError input.2 = false) (hr : input.1 = none) :
    waitPreviousAndSend name k pool ep none (some input) st c =
      { result := (none, (∅ : Meta)), state := st, clock := c, calls := [] } := by
  unfold waitPreviousAndSend
  simp only [he, Bool.false_eq_true, if_false, hr]

/-- Once the part count has reached `number_of_parts`, no later arrival can
ever trigger a pool call. -/
lemma processInputs_calls_nil_of_full (name : String) (k : Nat) (pool : Pool)
    (ep : Option String) (inputs : List (Option Req × Meta)) (st : NodeState)
    (c : Nat) (h : k ≤ st.parts_to_send.length) :
    (processInputs name k pool ep inputs st c).2.2.1 = [] := by
  induction inputs generalizing st c with
  | nil => rfl
  | cons input rest ih =>
    have hstep :
        (waitPreviousAndSend name k pool ep none (some input) st c).calls = [] ∧
        k ≤ (waitPreviousAndSend name k pool ep none (some input) st c).state.parts_to_send.length := by
      by_cases he : hasError input.2
      · rw [waitPreviousAndSend_error name k pool ep none input st c he]
        exact ⟨rfl, h⟩
      · rcases hr : input.1 with _ | req
        · rw [waitPreviousAndSend_none name k pool ep input st c
            (by simpa using he) hr]
          exact ⟨rfl, h⟩
        · have hk : st.parts_to_send.length + 1 ≠ k := by omega
          rw [waitPreviousAndSend_accumulate name k pool ep input req st c
            (by simpa using he) hr hk]
          refine ⟨rfl, ?_⟩
          simp only [List.length_append, List.length_cons, List.length_nil]
          omega
    simp only [processInputs]
    rw [ih _ _ hstep.2, hstep.1]
    simp

/-- Across any sequence of arrivals, a node issues at most one pool call. -/
lemma processInputs_calls_le_one (name : String) (k : Nat) (pool : Pool)
    (ep : Option String) (inputs : List (Option Req × Meta)) (st : NodeState)
    (c : Nat) :
    (processInputs name k pool ep inputs st c).2.2.1.length ≤ 1 := by
  induction inputs generalizing st c with
  | nil => simp [processInputs]
  | cons input rest ih =>
    simp only [processInputs]
    by_cases he : hasError input.2
    · rw [waitPreviousAndSend_error name k pool ep none input st c he]
      simpa using ih st c
    · rcases hr : input.1 with _ | req
      · rw [waitPreviousAndSend_none name k pool ep input st c
          (by simpa using he) hr]
        simpa using ih st c
      · by_cases hk : st.parts_to_send.length + 1 = k
        · rw [waitPreviousAndSend_send name k pool ep input req st c
            (by simpa using he) hr hk]
          have hfull : k ≤ (st.parts_to_send ++ [req]).length := by
            simp only [List.length_append, List.length_cons, List.length_nil]
            omega
          rw [processInputs_calls_nil_of_full name k pool ep rest _ _ hfull]
          simp
        · rw [waitPreviousAndSend_accumulate name k pool ep input req st c
            (by simpa using he) hr hk]
          simpa using ih _ _

/-- Unfolding equation for `processInputs` on a cons cell. -/
lemma processInputs_cons (name : String) (k : Nat) (pool : Pool)
    (ep : Option String) (input : Option Req × Meta)
    (rest : List (Option Req × Meta)) (st : NodeState) (c : Nat) :
    processInputs name k pool ep (input :: rest) st c =
      ((processInputs name k pool ep rest
          (waitPreviousAndSend name k pool ep none (some input) st c).state
          (waitPreviousAndSend name k pool ep none (some input) st c).clock).1,
        (processInputs name k pool ep rest
          (waitPreviousAndSend name k pool ep none (some input) st c).state
          (waitPreviousAndSend name k pool ep none (some input) st c).clock).2.1,
        (waitPreviousAndSend name k pool ep none (some input) st c).calls ++
          (processInputs name k pool ep rest
            (waitPreviousAndSend name k pool ep none (some input) st c).state
            (waitPreviousAndSend name k pool ep none (some input) st c).clock).2.2.1,
        (waitPreviousAndSend name k pool ep none (some input) st c).result ::
          (processInputs name k pool ep rest
            (waitPreviousAndSend name k pool ep none (some input) st c).state
            (waitPreviousAndSend name k pool ep none (some input) st c).clock).2.2.2) :=
  rfl

/-- A join node receiving exactly the arrivals that complete its part count:
every arrival but the last returns `(None, {})`, the last one triggers the
single batched pool call and returns its response. -/
lemma processInputs_join (name : String) (k : Nat) (pool : Pool)
    (ep : Option String) (inputs : List (Option Req × Meta)) (st : NodeState)
    (c : Nat) (hgood : ∀ x ∈ inputs, hasError x.2 = false ∧ x.1.isSome = true)
    (hcount : st.parts_to_send.length + inputs.length = k) (hne : inputs ≠ []) :
    (processInputs name k pool ep inputs st c).2.2.2 =
      List.replicate (inputs.length - 1) ((none : Option Req), (∅ : Meta)) ++
        [(some (pool (dispatchCall name ep
            (st.parts_to_send ++ inputs.filterMap Prod.fst))).1,
          (pool (dispatchCall name ep
            (st.parts_to_send ++ inputs.filterMap Prod.fst))).2)] ∧
    (processInputs name k pool ep inputs st c).2.2.1 =
      [dispatchCall name ep (st.parts_to_send ++ inputs.filterMap Prod.fst)] := by
  induction inputs generalizing st c with
  | nil => exact absurd rfl hne
  | cons x rest ih =>
    obtain ⟨he, hsome⟩ := hgood x (List.mem_cons_self x rest)
    obtain ⟨req, hr⟩ := Option.isSome_iff_exists.mp hsome
    rcases rest with _ | ⟨y, rest'⟩
    · have hk : st.parts_to_send.length + 1 = k := by
        simpa using hcount
      simp only [processInputs,
        waitPreviousAndSend_send name k pool ep x req st c he hr hk]
      simp [hr, dispatchCall]
    · have hk : st.parts_to_send.length + 1 ≠ k := by
        simp only [List.length_cons] at hcount
        omega
      rw [processInputs_cons,
        waitPreviousAndSend_accumulate name k pool ep x req st c he hr hk]
      dsimp only
      have hcount2 :
          ({ st with parts_to_send := st.parts_to_send ++ [req] } :
            NodeState).parts_to_send.length + (y :: rest').length = k := by
        simp only [List.length_append, List.length_cons, List.length_nil]
        simp only [List.length_cons] at hcount
        omega
      have hrec := ih { st with parts_to_send := st.parts_to_send ++ [req] } c
        (fun z hz => hgood z (List.mem_cons_of_mem x hz)) hcount2 (by simp)
      have hparts : st.parts_to_send ++ List.filterMap Prod.fst (x :: y :: rest') =
          st.parts_to_send ++ [req] ++ List.filterMap Prod.fst (y :: rest') := by
        simp [List.filterMap_cons, hr]
      refine ⟨?_, ?_⟩
      · rw [hrec.1, hparts]
        simp only [List.length_cons, Nat.succ_sub_one]
        rw [show rest'.length + 1 = rest'.length + 1 - 1 + 1 by omega]
        simp [List.replicate_succ]
      · rw [hrec.2, hparts]
        simp

/-- Unfolding equation for `execChain` on a cons cell. -/
lemma execChain_cons (pool : Pool) (ep : Option String) (n : String) (k : Nat)
    (rest : List (String × Nat)) (input : Option Req × Meta) (c : Nat) :
    execChain pool ep ((n, k) :: rest) input c =
      ((execChain pool ep rest
          (waitPreviousAndSend n k pool ep none (some input) initState c).result
          (waitPreviousAndSend n k pool ep none (some input) initState c).clock).1,
        (execChain pool ep rest
          (waitPreviousAndSend n k pool ep none (some input) initState c).result
          (waitPreviousAndSend n k pool ep none (some input) initState c).clock).2.1,
        (waitPreviousAndSend n k pool ep none (some input) initState c).state ::
          (execChain pool ep rest
            (waitPreviousAndSend n k pool ep none (some input) initState c).result
            (waitPreviousAndSend n k pool ep none (some input) initState c).clock).2.2.1,
        (waitPreviousAndSend n k pool ep none (some input) initState c).calls ++
          (execChain pool ep rest
            (waitPreviousAndSend n k pool ep none (some input) initState c).result
            (waitPreviousAndSend n k pool ep none (some input) initState c).clock).2.2.2) :=
  rfl

/-- The clock never moves backwards across one arrival. -/
lemma waitPreviousAndSend_clock_le (name : String) (k : Nat) (pool : Pool)
    (ep : Option String) (input : Option Req × Meta) (st : NodeState)
    (c : Nat) :
    c ≤ (waitPreviousAndSend name k pool ep none (some input) st c).clock := by
  by_cases he : hasError input.2
  · rw [waitPreviousAndSend_error name k pool ep none input st c he]
  · rcases hr : input.1 with _ | req
    · rw [waitPreviousAndSend_none name k pool ep input st c
        (by simpa using he) hr]
    · by_cases hk : st.parts_to_send.length + 1 = k
      · rw [waitPreviousAndSend_send name k pool ep input req st c
          (by simpa using he) hr hk]
        exact Nat.le_add_right c 2
      · rw [waitPreviousAndSend_accumulate name k pool ep input req st c
          (by simpa using he) hr hk]

/-- Any `start_time` present after an arrival was either already there or is
the clock reading taken during the arrival. -/
lemma waitPreviousAndSend_start_time (name : String) (k : Nat) (pool : Pool)
    (ep : Option String) (input : Option Req × Meta) (st : NodeState)
    (c s : Nat)
    (h : (waitPreviousAndSend name k pool ep none
      (some input) st c).state.start_time = some s) :
    st.start_time = some s ∨ s = c := by
  by_cases he : hasError input.2
  · rw [waitPreviousAndSend_error name k pool ep none input st c he] at h
    exact Or.inl h
  · rcases hr : input.1 with _ | req
    · rw [waitPreviousAndSend_none name k pool ep input st c
        (by simpa using he) hr] at h
      exact Or.inl h
    · by_cases hk : st.parts_to_send.length + 1 = k
      · rw [waitPreviousAndSend_send name k pool ep input req st c
          (by simpa using he) hr hk] at h
        simp only at h
        exact Or.inr (by simpa using h.symm)
      · rw [waitPreviousAndSend_accumulate name k pool ep input req st c
          (by simpa using he) hr hk] at h
        exact Or.inl h

/-- A fresh `end_time` recorded during an arrival lies strictly below the
clock after the arrival. -/
lemma waitPreviousAndSend_end_time (name : String) (k : Nat) (pool : Pool)
    (ep : Option String) (input : Option Req × Meta) (st : NodeState)
    (c e : Nat) (hst : st.end_time = none)
    (h : (waitPreviousAndSend name k pool ep none
      (some input) st c).state.end_time = some e) :
    e < (waitPreviousAndSend name k pool ep none (some input) st c).clock := by
  by_cases he : hasError input.2
  · rw [waitPreviousAndSend_error name k pool ep none input st c he] at h ⊢
    simp only at h
    rw [hst] at h
    cases h
  · rcases hr : input.1 with _ | req
    · rw [waitPreviousAndSend_none name k pool ep input st c
        (by simpa using he) hr] at h ⊢
      simp only at h
      rw [hst] at h
      cases h
    · by_cases hk : st.parts_to_send.length + 1 = k
      · rw [waitPreviousAndSend_send name k pool ep input req st c
          (by simpa using he) hr hk] at h ⊢
        simp only at h ⊢
        obtain rfl : c + 1 = e := by simpa using h
        omega
      · rw [waitPreviousAndSend_accumulate name k pool ep input req st c
          (by simpa using he) hr hk] at h ⊢
        simp only at h
        rw [hst] at h
        cases h

/-- Every start time recorded along a chain is at least the clock the chain
started with. -/
lemma execChain_start_ge (pool : Pool) (ep : Option String) :
    ∀ (nodes : List (String × Nat)) (input : Option Req × Meta) (c : Nat)
      (stt : NodeState), stt ∈ (execChain pool ep nodes input c).2.2.1 →
      ∀ s, stt.start_time = some s → c ≤ s := by
  intro nodes
  induction nodes with
  | nil =>
    intro input c stt h
    simp [execChain] at h
  | cons nd rest ih =>
    obtain ⟨n, k⟩ := nd
    intro input c stt h s hs
    rw [execChain_cons] at h
    rcases List.mem_cons.mp h with hhead | htail
    · subst hhead
      rcases waitPreviousAndSend_start_time n k pool ep input initState c s hs with
        hold | hnow
      · simp [initState] at hold
      · omega
    · have h1 := ih
        (waitPreviousAndSend n k pool ep none (some input) initState c).result
        (waitPreviousAndSend n k pool ep none (some input) initState c).clock
        stt htail s hs
      have h2 := waitPreviousAndSend_clock_le n k pool ep input initState c
      omega

/-- For adjacent nodes of an executed chain: any end time recorded on the
parent is at most any start time recorded on the child. -/
lemma execChain_adjacent (pool : Pool) (ep : Option String) :
    ∀ (nodes : List (String × Nat)) (input : Option Req × Meta) (c i e s : Nat),
      (((execChain pool ep nodes input c).2.2.1).getD i initState).end_time = some e →
      (((execChain pool ep nodes input c).2.2.1).getD (i + 1) initState).start_time = some s →
      e ≤ s := by
  intro nodes
  induction nodes with
  | nil =>
    intro input c i e s he _
    simp [execChain, initState] at he
  | cons nd rest ih =>
    obtain ⟨n, k⟩ := nd
    intro input c i e s he hs
    rw [execChain_cons] at he hs
    rcases i with _ | j
    · simp only [List.getD_cons_zero] at he
      simp only [List.getD_cons_succ] at hs
      have hlt := waitPreviousAndSend_end_time n k pool ep input initState c e
        rfl he
      cases hst : (execChain pool ep rest
          (waitPreviousAndSend n k pool ep none (some input) initState c).result
          (waitPreviousAndSend n k pool ep none (some input) initState c).clock).2.2.1 with
      | nil =>
        rw [hst] at hs
        simp [initState] at hs
      | cons st0 sts =>
        rw [hst] at hs
        simp only [List.getD_cons_zero] at hs
        have hmem : st0 ∈ (execChain pool ep rest
            (waitPreviousAndSend n k pool ep none (some input) initState c).result
            (waitPreviousAndSend n k pool ep none (some input) initState c).clock).2.2.1 := by
          rw [hst]
          exact List.mem_cons_self st0 sts
        have hge := execChain_start_ge pool ep rest
          (waitPreviousAndSend n k pool ep none (some input) initState c).result
          (waitPreviousAndSend n k pool ep none (some input) initState c).clock
          st0 hmem s hs
        omega
    · simp only [List.getD_cons_succ] at he hs
      exact ih
        (waitPreviousAndSend n k pool ep none (some input) initState c).result
        (waitPreviousAndSend n k pool ep none (some input) initState c).clock
        j e s he hs

/-- `_find_route` returns nothing exactly when no entry carries the name. -/
lemma findRoute_isNone_iff (routes : List RouteEntry) (name : String) :
    (findRoute routes name).isNone = true ↔
      name ∉ routes.map RouteEntry.pod := by
  rw [findRoute, Option.isNone_iff_eq_none, List.find?_eq_none]
  constructor
  · intro h hmem
    obtain ⟨r, hr, hpod⟩ := List.mem_map.mp hmem
    exact h r hr (by simp [hpod])
  · intro h r hr hpod
    exact h (List.mem_map.mpr ⟨r, hr, by simpa using hpod⟩)

/-- When `_find_route` finds an entry, the name is among the pods. -/
lemma findRoute_isSome_mem (routes : List RouteEntry) (name : String)
    (h : (findRoute routes name).isSome = true) :
    name ∈ routes.map RouteEntry.pod := by
  by_contra hc
  rw [← findRoute_isNone_iff] at hc
  simp [Option.isNone_iff_eq_none] at hc
  rw [hc] at h
  cases h

mutual
/-- `add_route` never removes a pod name from the routes. -/
lemma addRoute_pods_mono : ∀ (n : RNode) (routes : List RouteEntry)
    (p : String), p ∈ routes.map RouteEntry.pod →
    p ∈ (n.addRoute routes).map RouteEntry.pod
  | .mk name stime etime status outs, routes, p, hp => by
    simp only [RNode.addRoute]
    apply addRouteList_pods_mono outs _ p
    split
    · simp only [List.map_append]
      exact List.mem_append_left _ hp
    · exact hp
/-- List version of `addRoute_pods_mono`. -/
lemma addRouteList_pods_mono : ∀ (l : List RNode) (routes : List RouteEntry)
    (p : String), p ∈ routes.map RouteEntry.pod →
    p ∈ (addRouteList l routes).map RouteEntry.pod
  | [], _, _, hp => hp
  | n :: rest, routes, p, hp => by
    simp only [addRouteList]
    exact addRouteList_pods_mono rest _ p (addRoute_pods_mono n routes p hp)
end

mutual
/-- `add_route` preserves pairwise-distinct pod names: an entry is only
appended when its name is absent. -/
lemma addRoute_nodup : ∀ (n : RNode) (routes : List RouteEntry),
    (routes.map RouteEntry.pod).Nodup →
    ((n.addRoute routes).map RouteEntry.pod).Nodup
  | .mk name stime etime status outs, routes, h => by
    simp only [RNode.addRoute]
    apply addRouteList_nodup outs
    split
    next hcond =>
      rw [Bool.and_eq_true] at hcond
      have hnotin : name ∉ routes.map RouteEntry.pod :=
        (findRoute_isNone_iff routes name).mp hcond.1
      simp [List.nodup_append, h, hnotin]
    next => exact h
/-- List version of `addRoute_nodup`. -/
lemma addRouteList_nodup : ∀ (l : List RNode) (routes : List RouteEntry),
    (routes.map RouteEntry.pod).Nodup →
    ((addRouteList l routes).map RouteEntry.pod).Nodup
  | [], _, h => h
  | n :: rest, routes, h => by
    simp only [addRouteList]
    exact addRouteList_nodup rest _ (addRoute_nodup n routes h)
end

mutual
/-- Coverage only depends on the pods through membership. -/
lemma covered_mono : ∀ (n : RNode) (pods pods' : List String),
    (∀ x ∈ pods, x ∈ pods') → n.covered pods = true → n.covered pods' = true
  | .mk name stime etime status outs, pods, pods', hsub, h => by
    simp only [RNode.covered, Bool.and_eq_true, Bool.or_eq_true] at h ⊢
    refine ⟨?_, coveredList_mono outs pods pods' hsub h.2⟩
    rcases h.1 with h1 | h1
    · exact Or.inl h1
    · refine Or.inr ?_
      have : name ∈ pods := by simpa using h1
      simpa using hsub name this
/-- List version of `covered_mono`. -/
lemma coveredList_mono : ∀ (l : List RNode) (pods pods' : List String),
    (∀ x ∈ pods, x ∈ pods') → coveredList l pods = true →
    coveredList l pods' = true
  | [], _, _, _, _ => rfl
  | n :: rest, pods, pods', hsub, h => by
    simp only [coveredList, Bool.and_eq_true] at h ⊢
    exact ⟨covered_mono n pods pods' hsub h.1,
      coveredList_mono rest pods pods' hsub h.2⟩
end

mutual
/-- On a subtree all of whose started nodes already appear among the pods,
`add_route` changes nothing. -/
lemma addRoute_covered_id : ∀ (n : RNode) (routes : List RouteEntry),
    n.covered (routes.map RouteEntry.pod) = true → n.addRoute routes = routes
  | .mk name stime etime status outs, routes, h => by
    simp only [RNode.covered, Bool.and_eq_true, Bool.or_eq_true] at h
    simp only [RNode.addRoute]
    have hcond : ((findRoute routes name).isNone && stime.isSome) = false := by
      rcases h.1 with h1 | h1
      · have : stime.isSome = false := by
          simpa using h1
        simp [this]
      · have hmem : name ∈ routes.map RouteEntry.pod := by simpa using h1
        have : ¬(findRoute routes name).isNone = true := fun hc =>
          (findRoute_isNone_iff routes name).mp hc hmem
        simp [Bool.not_eq_true] at this
        simp [this]
    rw [hcond]
    simp only [Bool.false_eq_true, if_false]
    exact addRouteList_covered_id outs routes h.2
/-- List version of `addRoute_covered_id`. -/
lemma addRouteList_covered_id : ∀ (l : List RNode) (routes : List RouteEntry),
    coveredList l (routes.map RouteEntry.pod) = true →
    addRouteList l routes = routes
  | [], _, _ => rfl
  | n :: rest, routes, h => by
    simp only [coveredList, Bool.and_eq_true] at h
    simp only [addRouteList]
    rw [addRoute_covered_id n routes h.1]
    exact addRouteList_covered_id rest routes h.2
end

mutual
/-- After `add_route` runs on a subtree, every started node of the subtree
has its name among the pods. -/
lemma addRoute_covered_after : ∀ (n : RNode) (routes : List RouteEntry),
    n.covered ((n.addRoute routes).map RouteEntry.pod) = true
  | .mk name stime etime status outs, routes => by
    simp only [RNode.addRoute, RNode.covered, Bool.and_eq_true, Bool.or_eq_true]
    constructor
    · by_cases hsome : stime.isSome
      · refine Or.inr ?_
        have hname : name ∈
            ((if ((findRoute routes name).isNone && stime.isSome) then
                routes ++
                  [{ pod := name, start_time := stime.getD 0,
                     end_time := etime, status := status }]
              else routes).map RouteEntry.pod) := by
          by_cases hfind : (findRoute routes name).isNone
          · simp [hfind, hsome]
          · have hs : (findRoute routes name).isSome = true := by
              cases hh : findRoute routes name with
              | none => exact absurd (by simp [hh]) hfind
              | some r => simp
            have := findRoute_isSome_mem routes name hs
            split <;> simp [this]
        have := addRouteList_pods_mono outs _ name hname
        simpa using this
      · exact Or.inl (by simpa using hsome)
    · exact addRouteList_covered_after outs _
/-- List version of `addRoute_covered_after`. -/
lemma addRouteList_covered_after : ∀ (l : List RNode) (routes : List RouteEntry),
    coveredList l ((addRouteList l routes).map RouteEntry.pod) = true
  | [], _ => rfl
  | n :: rest, routes => by
    simp only [addRouteList, coveredList, Bool.and_eq_true]
    constructor
    · exact covered_mono n _ _
        (fun x hx => addRouteList_pods_mono rest _ x hx)
        (addRoute_covered_after n routes)
    · exact addRouteList_covered_after rest (n.addRoute routes)
end

end Jina

/-- C1: if the result awaited from the parent task carries the `is-error`
marker, `_wait_previous_and_send` returns that (request, metadata) pair
unchanged and does not call `send_requests_once`; consequently a whole chain
of downstream nodes fed that result issues no pool call at all and hands the
pair through verbatim. -/
theorem C1_error_short_circuit (name : String) (k : Nat) (pool : Jina.Pool)
    (ep : Option String) (r0 : Option Jina.Req)
    (input : Option Jina.Req × Jina.Meta) (st : Jina.NodeState) (c : Nat)
    (nodes : List (String × Nat)) (h : Jina.hasError input.2 = true) :
    (Jina.waitPreviousAndSend name k pool ep r0 (some input) st c).result = input ∧
    (Jina.waitPreviousAndSend name k pool ep r0 (some input) st c).calls = [] ∧
    (Jina.execChain pool ep nodes input c).1 = input ∧
    (Jina.execChain pool ep nodes input c).2.2.2 = [] := by
  refine ⟨?_, ?_, ?_, ?_⟩
  · rw [Jina.waitPreviousAndSend_error name k pool ep r0 input st c h]
  · rw [Jina.waitPreviousAndSend_error name k pool ep r0 input st c h]
  · rw [Jina.execChain_error pool ep nodes input c h]
  · rw [Jina.execChain_error pool ep nodes input c h]

/-- Witness for C1 at a concrete erroring input and a concrete two-node
chain. -/
theorem C1_error_short_circuit_witness :
    Jina.hasError [("is-error", "true")] = true ∧
    (Jina.waitPreviousAndSend "pod0" 1 (fun _ => (⟨7, 0⟩, ∅)) none none
        (some (some ⟨3, 0⟩, [("is-error", "true")])) Jina.initState 0).result =
      (some ⟨3, 0⟩, [("is-error", "true")]) ∧
    (Jina.execChain (fun _ => (⟨7, 0⟩, ∅)) none [("pod1", 1), ("pod2", 1)]
        (some ⟨3, 0⟩, [("is-error", "true")]) 0).2.2.2 = [] := by
  have h := C1_error_short_circuit "pod0" 1 (fun _ => (⟨7, 0⟩, ∅)) none none
    (some ⟨3, 0⟩, [("is-error", "true")]) Jina.initState 0
    [("pod1", 1), ("pod2", 1)] (by decide)
  exact ⟨by decide, h.1, h.2.2.2⟩

/-- C3: a node calls the connection pool at most once per traversal, and it
does so exactly when the collected part count reaches `number_of_parts`:
at that arrival it records `start_time`, issues one `send_requests_once`
call with the entire collected parts list as a single batch and `head=True`,
records `end_time` after the call, and returns the pool's response and
metadata; any clean arrival that does not complete the count only
accumulates the part. -/
theorem C3_dispatch_at_number_of_parts (name : String) (k : Nat)
    (pool : Jina.Pool) (ep : Option String)
    (input : Option Jina.Req × Jina.Meta) (req : Jina.Req)
    (st : Jina.NodeState) (c : Nat)
    (inputs : List (Option Jina.Req × Jina.Meta))
    (he : Jina.hasError input.2 = false) (hr : input.1 = some req) :
    (st.parts_to_send.length + 1 = k →
      Jina.waitPreviousAndSend name k pool ep none (some input) st c =
        { result :=
            (some (pool (Jina.dispatchCall name ep (st.parts_to_send ++ [req]))).1,
              (pool (Jina.dispatchCall name ep (st.parts_to_send ++ [req]))).2)
          state :=
            { parts_to_send := st.parts_to_send ++ [req]
              start_time := some c
              end_time := some (c + 1)
              status :=
                if Jina.hasError
                    (pool (Jina.dispatchCall name ep (st.parts_to_send ++ [req]))).2 then
                  some (pool (Jina.dispatchCall name ep
                    (st.parts_to_send ++ [req]))).1.headerStatus
                else st.status }
          clock := c + 2
          calls := [Jina.dispatchCall name ep (st.parts_to_send ++ [req])] }) ∧
    (st.parts_to_send.length + 1 ≠ k →
      Jina.waitPreviousAndSend name k pool ep none (some input) st c =
        { result := (none, (∅ : Jina.Meta))
          state := { st with parts_to_send := st.parts_to_send ++ [req] }
          clock := c
          calls := [] }) ∧
    (Jina.processInputs name k pool ep inputs st c).2.2.1.length ≤ 1 :=
  ⟨fun hk => Jina.waitPreviousAndSend_send name k pool ep input req st c he hr hk,
    fun hk => Jina.waitPreviousAndSend_accumulate name k pool ep input req st c he hr hk,
    Jina.processInputs_calls_le_one name k pool ep inputs st c⟩

/-- Witness for C3 at a concrete node with `number_of_parts = 2`: the first
clean arrival accumulates, the second fires the batched call with
`head=True` and records the timestamps. -/
theorem C3_dispatch_at_number_of_parts_witness :
    Jina.hasError (∅ : Jina.Meta) = false ∧
    ((some (⟨5, 0⟩ : Jina.Req), (∅ : Jina.Meta)).1 = some ⟨5, 0⟩) ∧
    (Jina.waitPreviousAndSend "pod" 2
        (fun call => (⟨call.requests.length, 9⟩, [("k", "v")])) none none
        (some (some ⟨5, 0⟩, (∅ : Jina.Meta)))
        { parts_to_send := [⟨4, 0⟩], start_time := none, end_time := none,
          status := none } 10 =
      { result := (some ⟨2, 9⟩, [("k", "v")])
        state :=
          { parts_to_send := [⟨4, 0⟩, ⟨5, 0⟩]
            start_time := some 10
            end_time := some 11
            status := none }
        clock := 12
        calls :=
          [{ requests := [⟨4, 0⟩, ⟨5, 0⟩]
             pod := "pod"
             head := true
             endpoint := none }] }) := by
  have h := C3_dispatch_at_number_of_parts "pod" 2
    (fun call => (⟨call.requests.length, 9⟩, [("k", "v")])) none
    (some ⟨5, 0⟩, (∅ : Jina.Meta)) ⟨5, 0⟩
    { parts_to_send := [⟨4, 0⟩], start_time := none, end_time := none,
      status := none } 10 [] (by decide) rfl
  refine ⟨by decide, rfl, ?_⟩
  have h1 := h.1 (by decide)
  rw [h1]
  decide

/-- C9: a join node with `number_of_parts = k` fed by k clean parent
arrivals issues exactly one pool call (batching all k parts); the first
k-1 awaiting tasks receive `(None, {})` and only the last receives the
pod's RPC response; moreover a `(None, {})` result passes through any
downstream node unchanged, appending no part and issuing no RPC. -/
theorem C9_join_single_response (name name2 : String) (k k2 : Nat)
    (pool : Jina.Pool) (ep : Option String)
    (inputs : List (Option Jina.Req × Jina.Meta)) (st2 : Jina.NodeState)
    (c c2 : Nat)
    (hgood : ∀ x ∈ inputs, Jina.hasError x.2 = false ∧ x.1.isSome = true)
    (hcount : inputs.length = k) (hne : inputs ≠ []) :
    (Jina.processInputs name k pool ep inputs Jina.initState c).2.2.2 =
      List.replicate (k - 1) ((none : Option Jina.Req), (∅ : Jina.Meta)) ++
        [(some (pool (Jina.dispatchCall name ep (inputs.filterMap Prod.fst))).1,
          (pool (Jina.dispatchCall name ep (inputs.filterMap Prod.fst))).2)] ∧
    (Jina.processInputs name k pool ep inputs Jina.initState c).2.2.1 =
      [Jina.dispatchCall name ep (inputs.filterMap Prod.fst)] ∧
    Jina.waitPreviousAndSend name2 k2 pool ep none
        (some (none, (∅ : Jina.Meta))) st2 c2 =
      { result := (none, (∅ : Jina.Meta)), state := st2, clock := c2,
        calls := [] } := by
  have hcount' : Jina.initState.parts_to_send.length + inputs.length = k := by
    simpa [Jina.initState] using hcount
  have h := Jina.processInputs_join name k pool ep inputs Jina.initState c
    hgood hcount' hne
  have hinit : Jina.initState.parts_to_send ++ inputs.filterMap Prod.fst =
      inputs.filterMap Prod.fst := by
    simp [Jina.initState]
  rw [hinit] at h
  refine ⟨?_, h.2, Jina.waitPreviousAndSend_none name2 k2 pool ep
    (none, (∅ : Jina.Meta)) st2 c2 rfl rfl⟩
  rw [h.1, hcount]

/-- Witness for C9: a join of two parents; the first arrival yields
`(None, {})`, the second the RPC response, one pool call in total; the
`(None, {})` pair passes through a downstream node untouched. -/
theorem C9_join_single_response_witness :
    (Jina.processInputs "join" 2 (fun call => (⟨call.requests.length, 0⟩, ∅))
        none [(some ⟨1, 0⟩, ∅), (some ⟨2, 0⟩, ∅)] Jina.initState 0).2.2.2 =
      [((none : Option Jina.Req), (∅ : Jina.Meta)), (some ⟨2, 0⟩, ∅)] ∧
    (Jina.processInputs "join" 2 (fun call => (⟨call.requests.length, 0⟩, ∅))
        none [(some ⟨1, 0⟩, ∅), (some ⟨2, 0⟩, ∅)] Jina.initState 0).2.2.1 =
      [{ requests := [⟨1, 0⟩, ⟨2, 0⟩]
         pod := "join"
         head := true
         endpoint := none }] := by
  have h := C9_join_single_response "join" "next" 2 1
    (fun call => (⟨call.requests.length, 0⟩, ∅)) none
    [(some ⟨1, 0⟩, ∅), (some ⟨2, 0⟩, ∅)] Jina.initState 0 0
    (by intro x hx; fin_cases hx <;> exact ⟨rfl, rfl⟩) rfl (by simp)
  refine ⟨?_, ?_⟩
  · rw [h.1]; decide
  · rw [h.2.1]; decide

/-- C6: timing monotonicity along an edge — for a parent and its child in an
executed chain, any `end_time` recorded on the parent is at most any
`start_time` recorded on the child (the child reads its start only after
awaiting the parent task, which records its end before returning). -/
theorem C6_timing_monotonicity (pool : Jina.Pool) (ep : Option String)
    (nodes : List (String × Nat)) (input : Option Jina.Req × Jina.Meta)
    (c i e s : Nat)
    (he : (((Jina.execChain pool ep nodes input c).2.2.1).getD i
      Jina.initState).end_time = some e)
    (hs : (((Jina.execChain pool ep nodes input c).2.2.1).getD (i + 1)
      Jina.initState).start_time = some s) :
    e ≤ s :=
  Jina.execChain_adjacent pool ep nodes input c i e s he hs

/-- Witness for C6 on a concrete two-node chain: the parent records end
time 1, the child records start time 2. -/
theorem C6_timing_monotonicity_witness :
    (((Jina.execChain (fun _ => (⟨9, 0⟩, ∅)) none [("a", 1), ("b", 1)]
        (some ⟨1, 0⟩, ∅) 0).2.2.1).getD 0 Jina.initState).end_time = some 1 ∧
    (((Jina.execChain (fun _ => (⟨9, 0⟩, ∅)) none [("a", 1), ("b", 1)]
        (some ⟨1, 0⟩, ∅) 0).2.2.1).getD 1 Jina.initState).start_time = some 2 ∧
    (1 : Nat) ≤ 2 := by
  refine ⟨by decide, by decide, ?_⟩
  exact C6_timing_monotonicity (fun _ => (⟨9, 0⟩, ∅)) none [("a", 1), ("b", 1)]
    (some ⟨1, 0⟩, ∅) 0 0 1 2 (by decide) (by decide)

/-- C4: `add_route` appends the entry {pod = node name, start_time,
end_time, status} exactly when the node's `start_time` is set and no entry
with that pod name is present yet, and `add_routes` keeps pod names
pairwise distinct — a node reachable along several paths still appears at
most once in the routes. -/
theorem C4_route_appended_once (name : String) (stime etime status : Option Nat)
    (routes : List Jina.RouteEntry) (origins : List Jina.RNode)
    (routes0 : List Jina.RouteEntry)
    (h : (routes0.map Jina.RouteEntry.pod).Nodup) :
    (Jina.RNode.addRoute (.mk name stime etime status []) routes =
      if ((Jina.findRoute routes name).isNone && stime.isSome) then
        routes ++
          [{ pod := name, start_time := stime.getD 0, end_time := etime,
             status := status }]
      else routes) ∧
    ((Jina.addRouteList origins routes0).map Jina.RouteEntry.pod).Nodup := by
  constructor
  · simp only [Jina.RNode.addRoute, Jina.addRouteList]
  · exact Jina.addRouteList_nodup origins routes0 h

/-- Witness for C4: a diamond-shaped forest reaching the same node twice
still records its pod only once. -/
theorem C4_route_appended_once_witness :
    (([] : List Jina.RouteEntry).map Jina.RouteEntry.pod).Nodup ∧
    ((Jina.addRouteList
        [Jina.RNode.mk "a" (some 0) (some 1) none
          [Jina.RNode.mk "d" (some 4) (some 5) none []],
         Jina.RNode.mk "b" (some 2) (some 3) none
          [Jina.RNode.mk "d" (some 4) (some 5) none []]]
        []).map Jina.RouteEntry.pod).Nodup :=
  ⟨by decide,
    (C4_route_appended_once "a" (some 0) (some 1) none []
      [Jina.RNode.mk "a" (some 0) (some 1) none
         [Jina.RNode.mk "d" (some 4) (some 5) none []],
       Jina.RNode.mk "b" (some 2) (some 3) none
         [Jina.RNode.mk "d" (some 4) (some 5) none []]]
      [] (by decide)).2⟩

/-- C10: `add_routes` is idempotent — with the nodes' timing state fixed,
applying it a second time to the same request leaves the routes list
unchanged, because every started node's name is already present after the
first application and `add_route` never modifies or removes entries. -/
theorem C10_add_routes_idempotent (origins : List Jina.RNode)
    (routes : List Jina.RouteEntry) :
    Jina.addRouteList origins (Jina.addRouteList origins routes) =
      Jina.addRouteList origins routes :=
  Jina.addRouteList_covered_id origins _
    (Jina.addRouteList_covered_after origins routes)

namespace Jina

lemma count_flatten_eq_sum (l : List (List String)) (n : String) :
    l.flatten.count n = (l.map (fun s => s.count n)).sum := by
  induction l with
  | nil => rfl
  | cons x rest ih => simp [List.count_append, ih]

/-- The first init loop counts exactly the incoming-edge multiplicity, the
`start-gateway` key included. -/
lemma numPartsPerNode_eq_incomingCount (rep : GraphRep) (n : String)
    (h : isGatewayName n = false) :
    numPartsPerNode rep n = incomingCount rep n := by
  rw [numPartsPerNode, incomingCount, if_neg (by simp [h]),
    count_flatten_eq_sum]
  rw [List.map_map]
  rfl

/-- With distinct keys, lookup on any member entry returns its value. -/
lemma lookupRep_eq_of_mem (rep : GraphRep) (h : uniqueKeys rep)
    (p : String × List String)
    (hp : p ∈ (rep : List (String × List String))) :
    lookupRep rep p.1 = some p.2 := by
  have hsome :
      ((rep : List (String × List String)).find?
        (fun q => q.1 == p.1)).isSome = true := by
    rw [List.find?_isSome]
    exact ⟨p, hp, by simp⟩
  obtain ⟨q, hq⟩ := Option.isSome_iff_exists.mp hsome
  have hqmem : q ∈ (rep : List (String × List String)) :=
    List.mem_of_find?_eq_some hq
  have hqkey : (q.1 == p.1) = true := by
    have := List.find?_some hq
    simpa using this
  have hqp : q = p :=
    List.inj_on_of_nodup_map h hqmem hp (by simpa using hqkey)
  rw [lookupRep, hq, hqp]
  rfl

/-- With distinct keys, a name hangs exactly when its entry maps to the
empty outgoing list. -/
lemma inHangingPodNames_iff (rep : GraphRep) (n : String)
    (h : uniqueKeys rep) :
    inHangingPodNames rep n = true ↔ lookupRep rep n = some [] := by
  constructor
  · intro hh
    rw [inHangingPodNames, List.any_eq_true] at hh
    obtain ⟨p, hp, hcond⟩ := hh
    rw [Bool.and_eq_true] at hcond
    have hkey : p.1 = n := by simpa using hcond.1
    have hempty : p.2 = [] := by simpa using hcond.2
    have hlook := lookupRep_eq_of_mem rep h p hp
    rw [hkey, hempty] at hlook
    exact hlook
  · intro hl
    rw [lookupRep] at hl
    obtain ⟨q, hq, hq2⟩ := Option.map_eq_some'.mp hl
    have hqmem : q ∈ (rep : List (String × List String)) :=
      List.mem_of_find?_eq_some hq
    have hqkey : (q.1 == n) = true := by
      have := List.find?_some hq
      simpa using this
    rw [inHangingPodNames, List.any_eq_true]
    exact ⟨q, hqmem, by simp [hqkey, hq2]⟩

/-- A name whose entry has the empty outgoing list cannot be a terminal. -/
lemma isTerminal_false_of_lookup_empty (rep : GraphRep) (n : String)
    (h : uniqueKeys rep) (hl : lookupRep rep n = some []) :
    isTerminal rep n = false := by
  rw [isTerminal]
  rw [Bool.eq_false_iff]
  intro hany
  rw [List.any_eq_true] at hany
  obtain ⟨p, hp, hcond⟩ := hany
  rw [Bool.and_eq_true] at hcond
  have hkey : p.1 = n := by simpa using hcond.1
  have hlook := lookupRep_eq_of_mem rep h p hp
  rw [hkey, hl] at hlook
  have : p.2 = [] := by simpa using hlook
  rw [this] at hcond
  simpa using hcond.2

mutual
/-- `get_leaf_tasks` hands back exactly the leaves, each paired with its
`not hanging` flag. -/
lemma getLeafTasks_eq_leaves : ∀ g : GNode,
    g.getLeafTasks = g.leaves.map (fun l => (!l.hanging, l.name))
  | .mk name hanging [] => by
    simp [GNode.getLeafTasks, GNode.leaves, GNode.name, GNode.hanging]
  | .mk name hanging (o :: os) => by
    simp only [GNode.getLeafTasks, GNode.leaves]
    exact getLeafTasksList_eq_leavesList (o :: os)
/-- List version of `getLeafTasks_eq_leaves`. -/
lemma getLeafTasksList_eq_leavesList : ∀ l : List GNode,
    getLeafTasksList l = (leavesList l).map (fun n => (!n.hanging, n.name))
  | [] => rfl
  | n :: rest => by
    simp only [getLeafTasksList, leavesList, List.map_append]
    rw [getLeafTasks_eq_leaves n, getLeafTasksList_eq_leavesList rest]
end

end Jina

/-- C2 fails as stated: in a representation where a node is reachable both
from `start-gateway` and from another node, the constructor counts the
`start-gateway` edge into `number_of_parts`, while the claim's count of
predecessors excluding `start-gateway` is 1. -/
theorem C2_counterexample :
    Jina.inNodeSet
      [("start-gateway", ["a", "b"]), ("a", ["b"]), ("b", [])] "b" = true ∧
    (Jina.buildNode
      [("start-gateway", ["a", "b"]), ("a", ["b"]), ("b", [])] "b").number_of_parts = 2 ∧
    Jina.specPredsExclStartGateway
      [("start-gateway", ["a", "b"]), ("a", ["b"]), ("b", [])] "b" = 1 ∧
    (Jina.buildNode
      [("start-gateway", ["a", "b"]), ("a", ["b"]), ("b", [])] "b").number_of_parts ≠
      (if 0 < Jina.specPredsExclStartGateway
          [("start-gateway", ["a", "b"]), ("a", ["b"]), ("b", [])] "b" then
        Jina.specPredsExclStartGateway
          [("start-gateway", ["a", "b"]), ("a", ["b"]), ("b", [])] "b"
      else 1) := by
  refine ⟨by decide, by decide, by decide, by decide⟩

/-- C2 (amended): for every constructed node, `number_of_parts` equals the
node's incoming-edge count over all keys of the representation — edges from
`start-gateway` included, with multiplicity — when that count is greater
than zero, and 1 otherwise. -/
theorem C2_number_of_parts (rep : Jina.GraphRep) (n : String)
    (hn : Jina.inNodeSet rep n = true) :
    (Jina.buildNode rep n).number_of_parts =
      if 0 < Jina.incomingCount rep n then Jina.incomingCount rep n else 1 := by
  have hgw : Jina.isGatewayName n = false := by
    rw [Jina.inNodeSet, Bool.and_eq_true] at hn
    simpa using hn.1
  rw [Jina.buildNode]
  simp only [Jina.numPartsPerNode_eq_incomingCount rep n hgw]

/-- Witness for C2 (amended) at the counterexample's representation: node
`b` has two incoming edges (one from `start-gateway`). -/
theorem C2_number_of_parts_witness :
    Jina.inNodeSet
      [("start-gateway", ["a", "b"]), ("a", ["b"]), ("b", [])] "b" = true ∧
    (Jina.buildNode
      [("start-gateway", ["a", "b"]), ("a", ["b"]), ("b", [])] "b").number_of_parts =
      (if 0 < Jina.incomingCount
          [("start-gateway", ["a", "b"]), ("a", ["b"]), ("b", [])] "b" then
        Jina.incomingCount
          [("start-gateway", ["a", "b"]), ("a", ["b"]), ("b", [])] "b"
      else 1) :=
  ⟨by decide,
    C2_number_of_parts [("start-gateway", ["a", "b"]), ("a", ["b"]), ("b", [])]
      "b" (by decide)⟩

/-- C5: with the distinct keys of a dict, a constructed node is hanging iff
it is not a terminal and its outgoing list in the representation is empty;
and `get_leaf_tasks` pairs each leaf's task with that leaf's `not hanging`
flag. -/
theorem C5_hanging_iff (rep : Jina.GraphRep) (n : String) (g : Jina.GNode)
    (hk : Jina.uniqueKeys rep) (_hn : Jina.inNodeSet rep n = true) :
    ((Jina.buildNode rep n).hanging = true ↔
      (Jina.isTerminal rep n = false ∧ Jina.lookupRep rep n = some [])) ∧
    g.getLeafTasks = g.leaves.map (fun l => (!l.hanging, l.name)) := by
  refine ⟨?_, Jina.getLeafTasks_eq_leaves g⟩
  have hb : (Jina.buildNode rep n).hanging = Jina.inHangingPodNames rep n := rfl
  rw [hb]
  constructor
  · intro hh
    have hl := (Jina.inHangingPodNames_iff rep n hk).mp hh
    exact ⟨Jina.isTerminal_false_of_lookup_empty rep n hk hl, hl⟩
  · intro ⟨_, hl⟩
    exact (Jina.inHangingPodNames_iff rep n hk).mpr hl

/-- Witness for C5: `a` is a hanging node in a concrete representation, and
a concrete two-leaf tree yields its flags from its leaves. -/
theorem C5_hanging_iff_witness :
    Jina.uniqueKeys [("start-gateway", ["a", "t"]), ("a", []), ("t", ["end-gateway"])] ∧
    Jina.inNodeSet [("start-gateway", ["a", "t"]), ("a", []), ("t", ["end-gateway"])] "a" = true ∧
    ((Jina.buildNode [("start-gateway", ["a", "t"]), ("a", []), ("t", ["end-gateway"])] "a").hanging = true ↔
      (Jina.isTerminal [("start-gateway", ["a", "t"]), ("a", []), ("t", ["end-gateway"])] "a" = false ∧
        Jina.lookupRep [("start-gateway", ["a", "t"]), ("a", []), ("t", ["end-gateway"])] "a" = some [])) ∧
    (Jina.GNode.mk "r" false [Jina.GNode.mk "h" true [], Jina.GNode.mk "t" false []]).getLeafTasks =
      [(false, "h"), (true, "t")] := by
  have h := C5_hanging_iff
    [("start-gateway", ["a", "t"]), ("a", []), ("t", ["end-gateway"])] "a"
    (Jina.GNode.mk "r" false [Jina.GNode.mk "h" true [], Jina.GNode.mk "t" false []])
    (by decide) (by decide)
  refine ⟨by decide, by decide, h.1, ?_⟩
  rw [h.2]
  decide

namespace Jina

/-- The range-map form of the connection list agrees with the recursive
amended form, for a fixed multi-shard flag. -/
lemma range_map_eq_amendedAux (podName ns : String) (portIn : Nat) (b : Bool) :
    ∀ m : Nat,
      (List.range m).map (fun i =>
        (toString i,
          (if b then toDnsName podName ++ "-" ++ toString i
           else toDnsName podName) ++ "." ++ ns ++ ".svc:" ++ toString portIn)) =
      amendedConnectionListAux podName ns portIn b m := by
  intro m
  induction m with
  | zero => rfl
  | succ k ih =>
    rw [List.range_succ, List.map_append, ih, amendedConnectionListAux]
    simp

/-- The code's connection list equals the amended spec mapping. -/
lemma connectionList_eq_amended (podName : String) (shards : Nat)
    (ns : String) (portIn : Nat) :
    connectionList podName shards ns portIn =
      amendedConnectionList podName shards ns portIn := by
  rw [connectionList, amendedConnectionList,
    ← range_map_eq_amendedAux podName ns portIn (decide (shards > 1)) shards]
  by_cases hs : shards > 1 <;> simp [hs]

end Jina

/-- C7 fails as stated: the code inserts a `.svc` cluster suffix between
the namespace and the port, so the address is `dns.namespace.svc:port`,
not the claim's `dns.namespace:port`. -/
theorem C7_counterexample :
    Jina.headConnectionList "pod_a/x" 1 "ns" 8081 false =
      some [("0", "pod-a-x.ns.svc:8081")] ∧
    Jina.claimConnectionList "pod_a/x" 1 "ns" 8081 =
      [("0", "pod-a-x.ns:8081")] ∧
    Jina.headConnectionList "pod_a/x" 1 "ns" 8081 false ≠
      some (Jina.claimConnectionList "pod_a/x" 1 "ns" 8081) := by
  refine ⟨by decide, by decide, by decide⟩

/-- C7 (amended): for every non-gateway pod with the Kubernetes connection
pool disabled, the head's `connection_list` maps each shard index i in
0..shards-1 (as a string) to `"{dns}.{namespace}.svc:{port}"`, where the
dns name is the pod name with `/` and `_` replaced by `-` and lowercased,
suffixed with `-{i}` exactly when shards > 1, and the port is the
well-known `K8S_PORT_IN`. -/
theorem C7_connection_list (podName : String) (shards : Nat) (ns : String)
    (portIn : Nat) (h : podName ≠ "gateway") :
    Jina.headConnectionList podName shards ns portIn false =
      some (Jina.amendedConnectionList podName shards ns portIn) := by
  rw [Jina.headConnectionList]
  rw [if_neg (by simpa using h), if_neg (by simp)]
  rw [Jina.connectionList_eq_amended]

/-- Witness for C7 at a concrete two-shard pod. -/
theorem C7_connection_list_witness :
    ("pod_a/x" ≠ "gateway") ∧
    Jina.headConnectionList "pod_a/x" 2 "ns" 8081 false =
      some (Jina.amendedConnectionList "pod_a/x" 2 "ns" 8081) :=
  ⟨by decide, C7_connection_list "pod_a/x" 2 "ns" 8081 (by decide)⟩

/-- C8: `get_deployment_yamls` returns exactly five manifests, in order:
a connection-pool Role, a connection-pool RoleBinding, a ConfigMap carrying
the node's env, a Service for the node, and a Deployment whose template
variant is selected by the presence of the uses-before/uses-after sidecar
images. -/
theorem C8_five_manifests (name namespc image_name container_cmd
      container_args : String) (replicas : Nat)
    (pull_policy jina_pod_name pea_type : String) (shard_id : Option Nat)
    (port_expose : Option Nat) (env : Option (List (String × String)))
    (gpus : Option Nat) (ib ia : Option String)
    (cb ca ab aa : Option String) (pe pin pub pua : Nat) :
    (Jina.getDeploymentYamls name namespc image_name container_cmd
        container_args replicas pull_policy jina_pod_name pea_type shard_id
        port_expose env gpus ib ia cb ca ab aa pe pin pub pua).length = 5 ∧
    (Jina.getDeploymentYamls name namespc image_name container_cmd
        container_args replicas pull_policy jina_pod_name pea_type shard_id
        port_expose env gpus ib ia cb ca ab aa pe pin pub pua).map
      Jina.RenderedYaml.template =
      ["connection-pool-role", "connection-pool-role-binding", "configmap",
        "service",
        if Jina.truthyStr ib && Jina.truthyStr ia then
          "deployment-uses-before-after"
        else if Jina.truthyStr ib then "deployment-uses-before"
        else if Jina.truthyStr ia then "deployment-uses-after"
        else "deployment"] ∧
    (Jina.getDeploymentYamls name namespc image_name container_cmd
        container_args replicas pull_policy jina_pod_name pea_type shard_id
        port_expose env gpus ib ia cb ca ab aa pe pin pub pua).getD 2
      (Jina.getYaml "" []) =
      Jina.getYaml "configmap"
        [("name", .s name), ("namespace", .s namespc),
         ("data", match env with | some e => .dict e | none => .missing)] ∧
    (Jina.getDeploymentYamls name namespc image_name container_cmd
        container_args replicas pull_policy jina_pod_name pea_type shard_id
        port_expose env gpus ib ia cb ca ab aa pe pin pub pua).getD 3
      (Jina.getYaml "" []) =
      Jina.getYaml "service"
        [("name", .s name), ("target", .s name), ("namespace", .s namespc),
         ("port_expose", .n (if Jina.truthyNat port_expose then
            port_expose.getD 0 else pe)),
         ("port_in", .n pin), ("type", .s "ClusterIP")] :=
  ⟨rfl, rfl, rfl, rfl⟩
